import Mathlib

/-!
Shallow embedding of the autoTrading core pipeline:
  * `MTRIndicator.calculate` (src/unnamed/part_000) — ATR-based sticky band indicator,
  * `TradingStrategy.generateSignals` (src/src/strategies/TradingStrategy.js),
  * `BacktestEngine.backtest` (src/src/engine/BacktestEngine.js).

JavaScript numbers are modelled as rationals (`ℚ`), `NaN`-marked array slots as
`Option ℚ`, `Math.floor` as `Rat.floor`, and the per-bar mutable loops as explicit
state-passing step functions iterated by structural recursion over the bar index.
Input arrays are modelled as functions `ℕ → ℚ` together with an explicit length.
-/

/-- Maximum of a nonempty list, as JavaScript `Math.max(...xs)`; `0` on `[]`
(the code only applies it to nonempty slices). -/
def listMax : List ℚ → ℚ
  | [] => 0
  | [a] => a
  | a :: b :: t => max a (listMax (b :: t))

/-- Minimum of a nonempty list, as JavaScript `Math.min(...xs)`; `0` on `[]`. -/
def listMin : List ℚ → ℚ
  | [] => 0
  | [a] => a
  | a :: b :: t => min a (listMin (b :: t))

/-- Arithmetic mean `xs.reduce((a,b)=>a+b,0)/xs.length` of a list. -/
def mean (l : List ℚ) : ℚ := l.sum / (l.length : ℚ)

/-- The slice `f a, f (a+1), …, f b` of a series, i.e. `arr.slice(a, b+1)`. -/
def window (f : ℕ → ℚ) (a b : ℕ) : List ℚ :=
  (List.range (b + 1 - a)).map fun k => f (a + k)

/-! ## MTR indicator (`MTRIndicator`, src/unnamed/part_000) -/

/-- Configuration of `MTRIndicator` (constructor defaults:
serenityWindow 20, atrWindow 14, bandMult 2.0, stabilityConfirmation 10,
initialBaseline null). `atrPctThreshold` is never read in `calculate` and is
omitted. -/
structure MTRParams where
  serenityWindow : ℕ
  atrWindow : ℕ
  bandMult : ℚ
  stabilityConfirmation : ℕ
  initialBaseline : Option ℚ
deriving DecidableEq

/-- True range per bar (`calculateATR`, first loop): bar 0 uses `high−low`,
later bars `max(high−low, |high−prevClose|, |low−prevClose|)`. -/
def trueRange (high low close : ℕ → ℚ) : ℕ → ℚ
  | 0 => high 0 - low 0
  | i + 1 =>
      max (high (i + 1) - low (i + 1))
        (max |high (i + 1) - close i| |low (i + 1) - close i|)

/-- The rolling-average value `atrValues.slice(i−atrWindow+1, i+1).sum / atrWindow`
(`calculateATR`, second loop); the code only reads it at `i ≥ atrWindow − 1`. -/
def atrVal (p : MTRParams) (high low close : ℕ → ℚ) (i : ℕ) : ℚ :=
  (window (trueRange high low close) (i + 1 - p.atrWindow) i).sum / (p.atrWindow : ℚ)

/-- The ATR output array: `NaN` (here `none`) for `i < atrWindow − 1`. -/
def atrAt (p : MTRParams) (high low close : ℕ → ℚ) (i : ℕ) : Option ℚ :=
  if i < p.atrWindow - 1 then none else some (atrVal p high low close i)

/-- `atrPct[i] = atr[i] / close[i]` where defined. -/
def atrPctVal (p : MTRParams) (high low close : ℕ → ℚ) (i : ℕ) : ℚ :=
  atrVal p high low close i / close i

/-- `startIdx = Math.max(serenityWindow, atrWindow)`. -/
def mtrStart (p : MTRParams) : ℕ := max p.serenityWindow p.atrWindow

/-- Loop state of `MTRIndicator.calculate`: current baseline/bands and the
`daysSinceLastChange` counter. -/
structure MTRState where
  baseline : ℚ
  upper : ℚ
  lower : ℚ
  daysSince : ℕ
deriving DecidableEq

/-- State before the loop: baseline `initialBaseline || close[startIdx]`,
initial band width `bandMult * atrPct[startIdx]`, counter 0. -/
def mtrInit (p : MTRParams) (high low close : ℕ → ℚ) : MTRState :=
  let b := p.initialBaseline.getD (close (mtrStart p))
  let w := p.bandMult * atrPctVal p high low close (mtrStart p)
  ⟨b, b * (1 + w), b * (1 - w), 0⟩

/-- `|close[i] − baseline| / baseline`, the deviation tested against 0.25. -/
def mtrDev (close : ℕ → ℚ) (i : ℕ) (s : MTRState) : ℚ :=
  |close i - s.baseline| / s.baseline

/-- The stability lookback `close.slice(max(0, i − stabilityConfirmation), i+1)`
(natural subtraction is the `Math.max(0, ·)` clamp). -/
def mtrWindow (p : MTRParams) (close : ℕ → ℚ) (i : ℕ) : List ℚ :=
  window close (i - p.stabilityConfirmation) i

/-- `recentVolatility = (max − min) / mean` over the stability lookback. -/
def mtrVol (p : MTRParams) (close : ℕ → ℚ) (i : ℕ) : ℚ :=
  (listMax (mtrWindow p close i) - listMin (mtrWindow p close i)) / mean (mtrWindow p close i)

/-- One iteration of the `calculate` loop body at bar `i`: increment the
counter, then change the baseline/bands only when deviation > 0.25, counter
> 30, and recent volatility < 0.15. -/
def mtrStep (p : MTRParams) (high low close : ℕ → ℚ) (i : ℕ) (s : MTRState) : MTRState :=
  let d := s.daysSince + 1
  if mtrDev close i s > 1/4 ∧ d > 30 then
    if mtrVol p close i < 3/20 then
      let b := mean (mtrWindow p close i)
      let bw := p.bandMult * atrPctVal p high low close i
      ⟨b, b * (1 + bw), b * (1 - bw), 0⟩
    else ⟨s.baseline, s.upper, s.lower, d⟩
  else ⟨s.baseline, s.upper, s.lower, d⟩

/-- State after processing bar `startIdx + k` of the `calculate` loop. -/
def mtrStateAfter (p : MTRParams) (high low close : ℕ → ℚ) : ℕ → MTRState
  | 0 => mtrStep p high low close (mtrStart p) (mtrInit p high low close)
  | k + 1 => mtrStep p high low close (mtrStart p + k + 1) (mtrStateAfter p high low close k)

/-- Output array `mtrBase` of `calculate` on a series of length `N`:
`NaN` (`none`) outside `[startIdx, N)`, else the (possibly just-updated)
baseline written at bar `i`. -/
def mtrBase (p : MTRParams) (high low close : ℕ → ℚ) (N i : ℕ) : Option ℚ :=
  if mtrStart p ≤ i ∧ i < N then
    some (mtrStateAfter p high low close (i - mtrStart p)).baseline
  else none

/-- Output array `mtrUpper` of `calculate`. -/
def mtrUpper (p : MTRParams) (high low close : ℕ → ℚ) (N i : ℕ) : Option ℚ :=
  if mtrStart p ≤ i ∧ i < N then
    some (mtrStateAfter p high low close (i - mtrStart p)).upper
  else none

/-- Output array `mtrLower` of `calculate`. -/
def mtrLower (p : MTRParams) (high low close : ℕ → ℚ) (N i : ℕ) : Option ℚ :=
  if mtrStart p ≤ i ∧ i < N then
    some (mtrStateAfter p high low close (i - mtrStart p)).lower
  else none

/-- Default MTR configuration. -/
def mtrDefaults : MTRParams := ⟨20, 14, 2, 10, none⟩

/-! ## Signal generator (`TradingStrategy`, src/src/strategies/TradingStrategy.js) -/

/-- Configuration of `TradingStrategy` (constructor defaults: stopLossPct 0.10,
minDaysBetweenTrades 2, insideMarginRatio 0.10, bandChangeEps 1e-6,
reassessOnBandChange true). `stopLossPct` is only read by the engine and lives
in `EngParams`; the field `insideMargin` models `insideMarginRatio`. -/
structure StratParams where
  minDaysBetweenTrades : ℕ
  insideMargin : ℚ
  bandChangeEps : ℚ
  reassessOnBandChange : Bool
deriving DecidableEq

/-- Strategy runtime state (`reset()`): in-position flag, last executed trade
index (initially −10000), previous bar's bands (initially null). -/
structure StratState where
  inPos : Bool
  lastTradeIndex : ℤ
  prevUpper : Option ℚ
  prevLower : Option ℚ
deriving DecidableEq

/-- `reset()` state. -/
def stratInit : StratState := ⟨false, -10000, none, none⟩

/-- `_levels(upper, lower)`: (buyLvl, sellLvl) with the band width floored at
1e-9. -/
def levels (p : StratParams) (u l : ℚ) : ℚ × ℚ :=
  let width := max (1 / 1000000000) (u - l)
  (l + p.insideMargin * width, u - p.insideMargin * width)

/-- `_bandChanged(upper, lower)`: false while either previous band is null. -/
def bandChanged (p : StratParams) (s : StratState) (u l : ℚ) : Bool :=
  match s.prevUpper, s.prevLower with
  | some pu, some pl =>
      if |u - pu| > p.bandChangeEps ∨ |l - pl| > p.bandChangeEps then true else false
  | _, _ => false

/-- `price <= arr[i-1]` where a `NaN` slot compares false (JS semantics). -/
def leOpt (x : ℚ) : Option ℚ → Bool
  | some v => if x ≤ v then true else false
  | none => false

/-- `price >= arr[i-1]` where a `NaN` slot compares false (JS semantics). -/
def geOpt (x : ℚ) : Option ℚ → Bool
  | some v => if v ≤ x then true else false
  | none => false

/-- One iteration of the `generateSignals` loop at bar `i ≥ 1`: returns the
updated runtime state and the pushed signal. Mirrors the source order:
undefined-band check, cooldown, band-change reassessment, then the
breakout / breakdown / inside-band regime rules. -/
def stratStep (p : StratParams) (close : ℕ → ℚ) (ub lb : ℕ → Option ℚ)
    (i : ℕ) (s : StratState) : StratState × ℤ :=
  match ub i, lb i with
  | some u, some l =>
    if (i : ℤ) - s.lastTradeIndex < (p.minDaysBetweenTrades : ℤ) then
      (⟨s.inPos, s.lastTradeIndex, some u, some l⟩, 0)
    else if p.reassessOnBandChange ∧ bandChanged p s u l ∧ s.inPos ∧ close i < l then
      (⟨false, (i : ℤ), some u, some l⟩, -1)
    else if p.reassessOnBandChange ∧ bandChanged p s u l ∧ ¬s.inPos ∧ u < close i then
      (⟨true, (i : ℤ), some u, some l⟩, 1)
    else if u < close i then
      if ¬s.inPos ∧ leOpt (close (i - 1)) (ub (i - 1)) then
        (⟨true, (i : ℤ), some u, some l⟩, 1)
      else (⟨s.inPos, s.lastTradeIndex, some u, some l⟩, 0)
    else if close i < l then
      if s.inPos ∧ geOpt (close (i - 1)) (lb (i - 1)) then
        (⟨false, (i : ℤ), some u, some l⟩, -1)
      else (⟨s.inPos, s.lastTradeIndex, some u, some l⟩, 0)
    else
      if ¬s.inPos ∧ close (i - 1) < (levels p u l).1 ∧ (levels p u l).1 ≤ close i then
        (⟨true, (i : ℤ), some u, some l⟩, 1)
      else if s.inPos ∧ (levels p u l).2 < close (i - 1) ∧ close i ≤ (levels p u l).2 then
        (⟨false, (i : ℤ), some u, some l⟩, -1)
      else (⟨s.inPos, s.lastTradeIndex, some u, some l⟩, 0)
  | _, _ => (s, 0)

/-- Runtime state after the loop has processed bars `1..i` (bar 0 is never
processed; `stratStateAfter 0 = stratInit`). -/
def stratStateAfter (p : StratParams) (close : ℕ → ℚ) (ub lb : ℕ → Option ℚ) : ℕ → StratState
  | 0 => stratInit
  | k + 1 => (stratStep p close ub lb (k + 1) (stratStateAfter p close ub lb k)).1

/-- The signal pushed for bar `i` (`signals[0] = 0` is the padding). -/
def signalAt (p : StratParams) (close : ℕ → ℚ) (ub lb : ℕ → Option ℚ) : ℕ → ℤ
  | 0 => 0
  | k + 1 => (stratStep p close ub lb (k + 1) (stratStateAfter p close ub lb k)).2

/-- The signals `signalAt i, …, signalAt (i+k-1)` in push order. -/
def sigsFrom (p : StratParams) (close : ℕ → ℚ) (ub lb : ℕ → Option ℚ) : ℕ → ℕ → List ℤ
  | _, 0 => []
  | i, k + 1 => signalAt p close ub lb i :: sigsFrom p close ub lb (i + 1) k

/-- `generateSignals` on a series of length `N`: the array starts as `[0]` and
one signal is pushed per bar `1 ≤ i < N`, so its length is `max 1 N`. -/
def generateSignals (p : StratParams) (close : ℕ → ℚ) (ub lb : ℕ → Option ℚ) (N : ℕ) : List ℤ :=
  sigsFrom p close ub lb 0 (max 1 N)

/-! ## Backtest engine (`BacktestEngine`, src/src/engine/BacktestEngine.js) -/

/-- Trade record `type` strings. -/
inductive TradeType where
  | buyLong
  | sellLong
  | scaleOut
  | coverShort
  | stopLoss
deriving DecidableEq

/-- A ledger entry; `date` is the bar index (the source stores `dates[i]`,
an opaque tag the engine never reads back). -/
structure Trade where
  date : ℕ
  type : TradeType
  price : ℚ
  shares : ℤ
  commission : ℚ
  pnl : ℚ
deriving DecidableEq

/-- Engine configuration plus the two fields the engine reads from the
strategy object (`stopLossPct`, `scaleOutPct || 0.5`). Defaults:
initialCapital 10000, commissionPerShare 0.01, minCommission 7.0,
taxRate 0.25. -/
structure EngParams where
  initialCapital : ℚ
  commissionPerShare : ℚ
  minCommission : ℚ
  taxRate : ℚ
  stopLossPct : ℚ
  scaleOutPct : ℚ
deriving DecidableEq

/-- `calculateCommission(shares) = max(shares*commissionPerShare, minCommission)`. -/
def commissionFor (p : EngParams) (q : ℤ) : ℚ :=
  max ((q : ℚ) * p.commissionPerShare) p.minCommission

/-- Portfolio state of `backtest`: cash, signed position flag, share count,
entry price. -/
structure EngState where
  capital : ℚ
  position : ℤ
  shares : ℤ
  entryPrice : ℚ
deriving DecidableEq

/-- State at the start of a run. -/
def engInit (p : EngParams) : EngState := ⟨p.initialCapital, 0, 0, 0⟩

/-- Sale of `qty` held shares at `price`: proceeds minus commission are
credited, tax `profit*taxRate` debited when the realized profit is positive,
and a ledger entry of type `ty` with `pnl = profit − commission` is appended.
The partial-exit, full-exit and hard-stop blocks of `backtest` are this exact
code with `qty`/`ty` instantiated (the source repeats it inline). -/
def sellExec (p : EngParams) (i : ℕ) (price : ℚ) (ty : TradeType) (qty : ℤ) (s : EngState) :
    EngState × Trade :=
  let c := commissionFor p qty
  let profit := (qty : ℚ) * (price - s.entryPrice)
  let cap2 := s.capital + (qty : ℚ) * price - c -
    (if 0 < profit then profit * p.taxRate else 0)
  (⟨cap2, s.position, s.shares - qty, s.entryPrice⟩,
   ⟨i, ty, price, -qty, c, profit - c⟩)

/-- The defensive `Cover Short` block of the open-long branch: credits
`profit − commission` (minus tax on gains) and flattens the position. -/
def coverExec (p : EngParams) (i : ℕ) (price : ℚ) (s : EngState) : EngState × Trade :=
  let cq := |s.shares|
  let c := commissionFor p cq
  let profit := (cq : ℚ) * (s.entryPrice - price)
  let cap2 := s.capital + profit - c - (if 0 < profit then profit * p.taxRate else 0)
  (⟨cap2, 0, 0, s.entryPrice⟩, ⟨i, TradeType.coverShort, price, cq, c, profit - c⟩)

/-- One iteration of the `backtest` loop at bar `i`: returns the new state,
the trades appended this bar, and this bar's final equity sample (the
mark-to-market push, overwritten by the trade branches exactly as in the
source). `sig = none` models a `NaN` signal. -/
def engStep (p : EngParams) (i : ℕ) (price : ℚ) (sig : Option ℤ) (s : EngState) :
    EngState × List Trade × ℚ :=
  let eq0 := s.capital + (if 0 < s.shares then (s.shares : ℚ) * price else 0)
  match sig with
  | none => (s, [], eq0)
  | some sg =>
    if sg = 0 then (s, [], eq0)
    else if sg = 2 ∧ 0 < s.position ∧ 0 < s.shares then
      let sellQty := max 1 ⌊(s.shares : ℚ) * p.scaleOutPct⌋
      let actual := min sellQty s.shares
      let so := sellExec p i price TradeType.scaleOut actual s
      let st2 : EngState :=
        if so.1.shares = 0 then ⟨so.1.capital, 0, so.1.shares, so.1.entryPrice⟩ else so.1
      (st2, [so.2],
       st2.capital + (if 0 < st2.shares then (st2.shares : ℚ) * price else 0))
    else if sg = 1 ∧ s.position ≤ 0 then
      let cover : EngState × List Trade :=
        if s.position < 0 then ((coverExec p i price s).1, [(coverExec p i price s).2])
        else (s, [])
      let s1 := cover.1
      let bq := ⌊s1.capital / price⌋
      if bq ≤ 0 then (s1, cover.2, eq0)
      else
        let c := commissionFor p bq
        let spend := (bq : ℚ) * price + c
        if s1.capital < spend then (s1, cover.2, eq0)
        else
          (⟨s1.capital - spend, 1, bq, price⟩,
           cover.2 ++ [⟨i, TradeType.buyLong, price, bq, c, -c⟩],
           s1.capital - spend + (bq : ℚ) * price)
    else
      let ex : EngState × List Trade × Option ℚ :=
        if sg = -1 ∧ 0 < s.position ∧ 0 < s.shares then
          let fe := sellExec p i price TradeType.sellLong s.shares s
          (⟨fe.1.capital, 0, 0, fe.1.entryPrice⟩, [fe.2], some fe.1.capital)
        else (s, [], none)
      let s2 := ex.1
      if 0 < s2.position ∧ 0 < s2.shares ∧ price ≤ s2.entryPrice * (1 - p.stopLossPct) then
        let st := sellExec p i price TradeType.stopLoss s2.shares s2
        (⟨st.1.capital, 0, 0, st.1.entryPrice⟩, ex.2.1 ++ [st.2], st.1.capital)
      else (s2, ex.2.1, (ex.2.2).getD eq0)

/-- Portfolio state after the loop has processed bars `0..n-1`. -/
def engStateAfter (p : EngParams) (close : ℕ → ℚ) (sigs : ℕ → Option ℤ) : ℕ → EngState
  | 0 => engInit p
  | n + 1 => (engStep p n (close n) (sigs n) (engStateAfter p close sigs n)).1

/-- Ledger after the loop has processed bars `0..n-1`. -/
def engTrades (p : EngParams) (close : ℕ → ℚ) (sigs : ℕ → Option ℤ) : ℕ → List Trade
  | 0 => []
  | n + 1 =>
      engTrades p close sigs n ++
        (engStep p n (close n) (sigs n) (engStateAfter p close sigs n)).2.1

/-- Equity curve after the loop has processed bars `0..n-1` (one sample per
bar, trade bars overwritten in place as in the source). -/
def engEquity (p : EngParams) (close : ℕ → ℚ) (sigs : ℕ → Option ℤ) : ℕ → List ℚ
  | 0 => []
  | n + 1 =>
      engEquity p close sigs n ++
        [(engStep p n (close n) (sigs n) (engStateAfter p close sigs n)).2.2]

/-- Default engine configuration (with the default strategy fields
`stopLossPct = 0.10` and scale-out fraction 0.5). -/
def engDefaults : EngParams := ⟨10000, 1/100, 7, 1/4, 1/10, 1/2⟩

/-! ## Auxiliary predicates and concrete series used by the verification -/

/-- Reachable-portfolio invariant of the engine loop: the position flag is 0
with no shares, or 1 with a positive share count (the short branch is dead
code under `engInit`). -/
def engInv (s : EngState) : Prop :=
  (s.position = 0 ∧ s.shares = 0) ∨ (s.position = 1 ∧ 0 < s.shares)

/-- The gross (pre-commission, pre-tax) profit a ledger entry represents,
reconstructed from the entry price in force when it was appended: 0 for an
entry trade, `qty*(entry−price)` for a short cover, `qty*(price−entry)` for
the three long-side liquidations. -/
def grossOf (entry : ℚ) (t : Trade) : ℚ :=
  match t.type with
  | TradeType.buyLong => 0
  | TradeType.coverShort => (t.shares : ℚ) * (entry - t.price)
  | _ => (-t.shares : ℚ) * (t.price - entry)

/-- Checks that the nonzero entries of a signal list alternate — the next
expected nonzero entry is `1` when the flag is `true` and `-1` when it is
`false` — and contain nothing outside {−1, 0, 1}. -/
def altCheck : Bool → List ℤ → Bool
  | _, [] => true
  | b, s :: rest =>
      if s = 0 then altCheck b rest
      else if s = (if b then 1 else -1) then altCheck (!b) rest
      else false

/-- Two-bar series: buy at 30, then a 13% drop to 26 on a hold bar. -/
def c1close : ℕ → ℚ := fun i => if i = 0 then 30 else 26

/-- Signals for `c1close`: buy on bar 0, hold on every later bar. -/
def c1sigs : ℕ → Option ℤ := fun i => if i = 0 then some 1 else some 0

/-- Constant price 20: `floor(10000/20) = 500` shares cost 10007 with
commission, just over the default capital. -/
def c2close : ℕ → ℚ := fun _ => 20

/-- A buy signal on every bar. -/
def c2sigs : ℕ → Option ℤ := fun _ => some 1

/-- Two-bar series: buy at 30, sell at 40 for a 3330 gross profit. -/
def c4close : ℕ → ℚ := fun i => if i = 0 then 30 else 40

/-- Signals for `c4close`: buy on bar 0, full exit on bar 1. -/
def c4sigs : ℕ → Option ℤ := fun i => if i = 0 then some 1 else some (-1)

/-- Small MTR configuration (windows of 1) so the hard-coded 30-bar clock
dominates the trace length. -/
def p5c : MTRParams := ⟨1, 1, 2, 1, none⟩

/-- A series that steps 100 → 130 → 170, each step a >25% move followed by a
flat stabilization stretch. -/
def c5c : ℕ → ℚ := fun i => if i < 30 then 100 else if i < 60 then 130 else 170

/-- A concrete pre-change indicator state used to witness the change rule. -/
def s5w : MTRState := ⟨100, 100, 100, 35⟩

/-- A constant series at 130. -/
def cw130 : ℕ → ℚ := fun _ => 130

/-- Default strategy configuration (minDaysBetweenTrades 2,
insideMarginRatio 0.10, bandChangeEps 1e-6, reassess on). -/
def spDefaults : StratParams := ⟨2, 1/10, 1/1000000, true⟩

/-- Constant upper band 10. -/
def u6 : ℕ → Option ℚ := fun _ => some 10

/-- Constant lower band 5. -/
def l6 : ℕ → Option ℚ := fun _ => some 5

/-- Series crossing above the band: 8 on bar 0, 11 afterwards. -/
def c6c : ℕ → ℚ := fun i => if i = 0 then 8 else 11

/-- Upper band defined only at bar 1. -/
def u9 : ℕ → Option ℚ := fun i => if i = 1 then some 10 else none

/-- Lower band defined only at bar 1. -/
def l9 : ℕ → Option ℚ := fun i => if i = 1 then some 5 else none

/-- A constant series at 8 (inside the `u9`/`l9` band). -/
def c9c : ℕ → ℚ := fun _ => 8

/-- A constant series at 100. -/
def cw100 : ℕ → ℚ := fun _ => 100

/-- All-undefined band array. -/
def bandsNone : ℕ → Option ℚ := fun _ => none

/-! ## Engine lemmas -/

lemma sellExec_position (p : EngParams) (i : ℕ) (price : ℚ) (ty : TradeType) (qty : ℤ) (s : EngState) :
    (sellExec p i price ty qty s).1.position = s.position := rfl

lemma sellExec_shares (p : EngParams) (i : ℕ) (price : ℚ) (ty : TradeType) (qty : ℤ) (s : EngState) :
    (sellExec p i price ty qty s).1.shares = s.shares - qty := rfl

lemma coverExec_position (p : EngParams) (i : ℕ) (price : ℚ) (s : EngState) :
    (coverExec p i price s).1.position = 0 := rfl

lemma coverExec_shares (p : EngParams) (i : ℕ) (price : ℚ) (s : EngState) :
    (coverExec p i price s).1.shares = 0 := rfl

lemma engInv_init (p : EngParams) : engInv (engInit p) := Or.inl ⟨rfl, rfl⟩

set_option maxHeartbeats 1000000 in
lemma engInv_step (p : EngParams) (i : ℕ) (price : ℚ) (sig : Option ℤ) (s : EngState)
    (h : engInv s) : engInv (engStep p i price sig s).1 := by
  cases sig with
  | none => exact h
  | some sg =>
    simp only [engStep, engInv] at h ⊢
    split_ifs <;>
      simp only [sellExec_position, sellExec_shares, coverExec_position, coverExec_shares] at *
    all_goals
      first
        | omega
        | (exact Or.inl ⟨trivial, by first | assumption | omega | trivial⟩)
        | (exact Or.inr ⟨trivial, by first | assumption | omega | trivial⟩)

set_option maxHeartbeats 1000000 in
lemma engStep_equity (p : EngParams) (i : ℕ) (price : ℚ) (sig : Option ℤ) (s : EngState)
    (h : engInv s) :
    (engStep p i price sig s).2.2 =
      (engStep p i price sig s).1.capital +
        (if 0 < (engStep p i price sig s).1.shares
         then ((engStep p i price sig s).1.shares : ℚ) * price else 0) := by
  cases sig with
  | none => rfl
  | some sg =>
    simp only [engStep, engInv] at h ⊢
    split_ifs <;> dsimp only at * <;>
      first
        | rfl
        | (exfalso; omega)
        | simp

lemma engInv_stateAfter (p : EngParams) (close : ℕ → ℚ) (sigs : ℕ → Option ℤ) :
    ∀ n, engInv (engStateAfter p close sigs n)
  | 0 => engInv_init p
  | n + 1 => engInv_step p n (close n) (sigs n) _ (engInv_stateAfter p close sigs n)

lemma engEquity_length (p : EngParams) (close : ℕ → ℚ) (sigs : ℕ → Option ℤ) :
    ∀ n, (engEquity p close sigs n).length = n := by
  intro n
  induction n with
  | zero => rfl
  | succ n ih => simp [engEquity, ih]

lemma engEquity_getD (p : EngParams) (close : ℕ → ℚ) (sigs : ℕ → Option ℤ)
    (n i : ℕ) (hi : i < n) :
    (engEquity p close sigs n).getD i 0 =
      (engStep p i (close i) (sigs i) (engStateAfter p close sigs i)).2.2 := by
  induction n with
  | zero => omega
  | succ n ih =>
    rw [engEquity]
    rcases Nat.lt_or_ge i n with hlt | hge
    · rw [List.getD_append _ _ _ _ (by rw [engEquity_length]; exact hlt)]
      exact ih hlt
    · have hin : i = n := by omega
      subst hin
      rw [List.getD_append_right _ _ _ _ (by rw [engEquity_length])]
      simp [engEquity_length]

/-! ## Claims C1–C4: the backtest engine -/

/-- C3: at every bar `i < N`, the equity sample recorded for bar `i` equals
the post-processing cash plus position value (`shares × close[i]`, counted
only when shares are held) of that same bar, including bars on which an
entry, exit, scale-out or stop-loss trade executed. -/
theorem equity_reflects_post_trade_state (p : EngParams) (close : ℕ → ℚ)
    (sigs : ℕ → Option ℤ) (N i : ℕ) (hi : i < N) :
    (engEquity p close sigs N).getD i 0 =
      (engStateAfter p close sigs (i + 1)).capital +
        (if 0 < (engStateAfter p close sigs (i + 1)).shares
         then ((engStateAfter p close sigs (i + 1)).shares : ℚ) * close i else 0) := by
  rw [engEquity_getD p close sigs N i hi]
  have h := engStep_equity p i (close i) (sigs i) (engStateAfter p close sigs i)
    (engInv_stateAfter p close sigs i)
  simpa only [engStateAfter] using h

/-- Witness for C3 at a concrete one-bar run. -/
theorem equity_reflects_post_trade_state_witness :
    (engEquity engDefaults c2close c2sigs 1).getD 0 0 =
      (engStateAfter engDefaults c2close c2sigs 1).capital +
        (if 0 < (engStateAfter engDefaults c2close c2sigs 1).shares
         then ((engStateAfter engDefaults c2close c2sigs 1).shares : ℚ) * c2close 0 else 0) :=
  equity_reflects_post_trade_state engDefaults c2close c2sigs 1 0 (by omega)

/-- C1 (code bug): on the series `close = [30, 26]` with signals `[1, 0]` and
default parameters, bar 1 is long 333 shares from entry price 30 and its
close 26 is at or below the stop level `30 × (1 − 0.10) = 27`, yet — because
`backtest` executes `continue` on a zero/NaN signal before the hard-stop
check — the bar ends still long with no `Stop Loss` trade recorded. -/
theorem stopLoss_skipped_on_hold_bar :
    (engStateAfter engDefaults c1close c1sigs 2).position = 1 ∧
    (engStateAfter engDefaults c1close c1sigs 2).shares = 333 ∧
    (∀ t ∈ engTrades engDefaults c1close c1sigs 2, t.type ≠ TradeType.stopLoss) ∧
    c1close 1 ≤
      (engStateAfter engDefaults c1close c1sigs 2).entryPrice * (1 - engDefaults.stopLossPct) ∧
    c1sigs 1 = some 0 := by
  have h1 : engStateAfter engDefaults c1close c1sigs 1 = ⟨3, 1, 333, 30⟩ := by
    norm_num [engStateAfter, engStep, engInit, commissionFor, engDefaults, c1close, c1sigs,
      sellExec, coverExec]
  have h2 : engStateAfter engDefaults c1close c1sigs 2 = ⟨3, 1, 333, 30⟩ := by
    show engStateAfter engDefaults c1close c1sigs (1 + 1) = _
    rw [engStateAfter, h1]
    norm_num [engStep, commissionFor, engDefaults, c1close, c1sigs, sellExec, coverExec]
  have ht1 : engTrades engDefaults c1close c1sigs 1 = [⟨0, TradeType.buyLong, 30, 333, 7, -7⟩] := by
    norm_num [engTrades, engStateAfter, engStep, engInit, commissionFor, engDefaults,
      c1close, c1sigs, sellExec, coverExec]
  have ht : engTrades engDefaults c1close c1sigs 2 = [⟨0, TradeType.buyLong, 30, 333, 7, -7⟩] := by
    show engTrades engDefaults c1close c1sigs (1 + 1) = _
    rw [engTrades, ht1, h1]
    norm_num [engStep, commissionFor, engDefaults, c1close, c1sigs, sellExec, coverExec]
  refine ⟨by rw [h2], by rw [h2], ?_, ?_, rfl⟩
  · rw [ht]
    intro t htm
    simp only [List.mem_singleton] at htm
    subst htm
    simp
  · rw [h2]
    norm_num [c1close, engDefaults]

/-- Counterexample to C2: with initialCapital 10000, price 20,
commissionPerShare 0.01 and minCommission 7, a buy signal executes no trade
at all, even though 499 shares (an integer quantity ≥ 1) would cost
`499×20 + 7 = 9987 ≤ 10000`: the engine only tries `floor(cash/price) = 500`
shares and skips when that overspends, instead of reducing the quantity. -/
theorem entry_skipped_despite_affordable_qty :
    engTrades engDefaults c2close c2sigs 1 = [] ∧
    (1 : ℤ) ≤ 499 ∧
    (499 : ℚ) * c2close 0 + commissionFor engDefaults 499 ≤ engDefaults.initialCapital := by
  refine ⟨?_, by norm_num, by norm_num [c2close, commissionFor, engDefaults]⟩
  norm_num [engTrades, engStateAfter, engStep, engInit, commissionFor, engDefaults, c2close, c2sigs]

/-- C2 (amended): on a buy signal while flat, `backtest` computes
`bq = floor(cash/price)` and executes an open-long trade of exactly `bq`
shares iff `bq ≥ 1` and `bq×price + commission(bq) ≤ cash`; when the
commission pushes that single candidate's spend above cash the entry is
skipped entirely — no smaller quantity is tried. -/
theorem entry_executes_iff_floor_qty_affordable (p : EngParams) (i : ℕ) (price : ℚ)
    (s : EngState) (hpos : s.position = 0) :
    ((engStep p i price (some 1) s).2.1 ≠ [] ↔
      1 ≤ ⌊s.capital / price⌋ ∧
        (⌊s.capital / price⌋ : ℚ) * price + commissionFor p ⌊s.capital / price⌋ ≤ s.capital) ∧
    (1 ≤ ⌊s.capital / price⌋ →
      (⌊s.capital / price⌋ : ℚ) * price + commissionFor p ⌊s.capital / price⌋ ≤ s.capital →
      (engStep p i price (some 1) s).2.1 =
        [⟨i, TradeType.buyLong, price, ⌊s.capital / price⌋, commissionFor p ⌊s.capital / price⌋,
          -commissionFor p ⌊s.capital / price⌋⟩] ∧
      (engStep p i price (some 1) s).1 =
        ⟨s.capital - ((⌊s.capital / price⌋ : ℚ) * price + commissionFor p ⌊s.capital / price⌋),
         1, ⌊s.capital / price⌋, price⟩) := by
  simp only [engStep, hpos]
  norm_num
  split_ifs with hbq hsh hspend hsh2
  · exact ⟨⟨fun hne => absurd rfl hne, fun hrhs => absurd hrhs.1 (by omega)⟩,
      fun h1 h2 => absurd h1 (by omega)⟩
  · exact ⟨⟨fun hne => absurd rfl hne, fun hrhs => absurd hrhs.1 (by omega)⟩,
      fun h1 h2 => absurd h1 (by omega)⟩
  · exact ⟨⟨fun hne => absurd rfl hne, fun hrhs => absurd hrhs.2 (not_le.mpr hspend)⟩,
      fun h1 h2 => absurd h2 (not_le.mpr hspend)⟩
  · exact ⟨⟨fun hne => absurd rfl hne, fun hrhs => absurd hrhs.2 (not_le.mpr hspend)⟩,
      fun h1 h2 => absurd h2 (not_le.mpr hspend)⟩
  · refine ⟨⟨fun _ => ⟨by omega, not_lt.mp (by assumption)⟩, fun _ => by simp⟩,
      fun h1 h2 => ⟨by simp, by dsimp⟩⟩

/-- Witness for C2 (amended): at price 30 with default capital the entry
does execute, for `floor(10000/30) = 333` shares. -/
theorem entry_executes_iff_floor_qty_affordable_witness :
    (engStep engDefaults 0 30 (some 1) (engInit engDefaults)).2.1 =
      [⟨0, TradeType.buyLong, 30, ⌊(engInit engDefaults).capital / 30⌋,
        commissionFor engDefaults ⌊(engInit engDefaults).capital / 30⌋,
        -commissionFor engDefaults ⌊(engInit engDefaults).capital / 30⌋⟩] :=
  ((entry_executes_iff_floor_qty_affordable engDefaults 0 30 (engInit engDefaults) rfl).2
    (by norm_num [engInit, engDefaults])
    (by norm_num [engInit, engDefaults, commissionFor])).1

/-- Counterexample to C4: in the run `close = [30, 40]`, signals
`[1, −1]`, defaults (taxRate 0.25), the close-long ledger entry has gross
profit 3330 > 0 and commission 7, and its recorded pnl is `3323 = 3330 − 7`,
which differs from the claimed `gross − commission − gross×taxRate`. -/
theorem sell_pnl_ignores_tax_counterexample :
    (engTrades engDefaults c4close c4sigs 2).getD 1 ⟨0, TradeType.buyLong, 0, 0, 0, 0⟩ =
      ⟨1, TradeType.sellLong, 40, -333, 7, 3323⟩ ∧
    grossOf 30 ⟨1, TradeType.sellLong, 40, -333, 7, 3323⟩ = 3330 ∧
    (0 : ℚ) < 3330 ∧ (0 : ℚ) < engDefaults.taxRate ∧
    (3323 : ℚ) ≠ 3330 - 7 - 3330 * engDefaults.taxRate := by
  refine ⟨?_, by norm_num [grossOf], by norm_num, by norm_num [engDefaults],
    by norm_num [engDefaults]⟩
  have h1 : engStateAfter engDefaults c4close c4sigs 1 = ⟨3, 1, 333, 30⟩ := by
    norm_num [engStateAfter, engStep, engInit, commissionFor, engDefaults, c4close, c4sigs,
      sellExec, coverExec]
  have t1 : engTrades engDefaults c4close c4sigs 1 = [⟨0, TradeType.buyLong, 30, 333, 7, -7⟩] := by
    norm_num [engTrades, engStateAfter, engStep, engInit, commissionFor, engDefaults,
      c4close, c4sigs, sellExec, coverExec]
  have t2 : engTrades engDefaults c4close c4sigs 2 =
      [⟨0, TradeType.buyLong, 30, 333, 7, -7⟩, ⟨1, TradeType.sellLong, 40, -333, 7, 3323⟩] := by
    show engTrades engDefaults c4close c4sigs (1 + 1) = _
    rw [engTrades, t1, h1]
    norm_num [engStep, commissionFor, engDefaults, c4close, c4sigs, sellExec, coverExec]
  rw [t2]
  rfl

/-- C4 (amended): every ledger entry appended by a `backtest` step satisfies
`pnl = grossProfit − commission`, where the gross profit is reconstructed
from the entry price in force (0 for an open-long entry): the recorded pnl
is net of commission only; the tax on positive gains is debited from cash
but never reflected in the `pnl` field. -/
theorem trade_pnl_gross_minus_commission (p : EngParams) (i : ℕ) (price : ℚ)
    (sig : Option ℤ) (s : EngState) (t : Trade)
    (ht : t ∈ (engStep p i price sig s).2.1) :
    t.pnl = grossOf s.entryPrice t - t.commission := by
  cases sig with
  | none => simp [engStep] at ht
  | some sg =>
    simp only [engStep] at ht
    split_ifs at ht <;>
      simp only [List.mem_append, List.mem_singleton, List.mem_cons, List.not_mem_nil,
        or_false, false_or] at ht
    all_goals try exact ht.elim
    all_goals try (exfalso; simp_all; done)
    all_goals
      first
        | (rcases ht with rfl | rfl <;> (simp [sellExec, coverExec, grossOf] <;> push_cast <;> ring))
        | (subst ht; simp [sellExec, coverExec, grossOf] <;> push_cast <;> ring)

/-- Witness for C4 (amended) at the concrete close-long trade of the
`c4close` run. -/
theorem trade_pnl_gross_minus_commission_witness :
    (3323 : ℚ) = grossOf 30 ⟨1, TradeType.sellLong, 40, -333, 7, 3323⟩ - 7 := by
  have h := trade_pnl_gross_minus_commission engDefaults 1 40 (some (-1)) ⟨3, 1, 333, 30⟩
    ⟨1, TradeType.sellLong, 40, -333, 7, 3323⟩ ?_
  · simpa using h
  · norm_num [engStep, sellExec, commissionFor, engDefaults]

/-! ## List lemmas for the window statistics -/


lemma le_listMax : ∀ (l : List ℚ), ∀ x ∈ l, x ≤ listMax l := by
  intro l
  induction l with
  | nil => intro x hx; exact absurd hx (List.not_mem_nil x)
  | cons a t ih =>
    cases t with
    | nil =>
      intro x hx
      simp only [List.mem_singleton] at hx
      subst hx
      simp [listMax]
    | cons b t2 =>
      intro x hx
      rw [show listMax (a :: b :: t2) = max a (listMax (b :: t2)) from rfl]
      rcases List.mem_cons.mp hx with rfl | hx2
      · exact le_max_left _ _
      · exact le_trans (ih x hx2) (le_max_right _ _)

lemma listMin_le : ∀ (l : List ℚ), ∀ x ∈ l, listMin l ≤ x := by
  intro l
  induction l with
  | nil => intro x hx; exact absurd hx (List.not_mem_nil x)
  | cons a t ih =>
    cases t with
    | nil =>
      intro x hx
      simp only [List.mem_singleton] at hx
      subst hx
      simp [listMin]
    | cons b t2 =>
      intro x hx
      rw [show listMin (a :: b :: t2) = min a (listMin (b :: t2)) from rfl]
      rcases List.mem_cons.mp hx with rfl | hx2
      · exact min_le_left _ _
      · exact le_trans (min_le_right _ _) (ih x hx2)

lemma sum_le_listMax_mul : ∀ (l : List ℚ), l.sum ≤ listMax l * l.length := by
  intro l
  induction l with
  | nil => simp [listMax]
  | cons a t ih =>
    cases t with
    | nil => simp [listMax]
    | cons b t2 =>
      rw [show listMax (a :: b :: t2) = max a (listMax (b :: t2)) from rfl]
      have h1 : (b :: t2).sum ≤ listMax (b :: t2) * (b :: t2).length := ih
      have h2 : listMax (b :: t2) * ((b :: t2).length : ℚ) ≤
          max a (listMax (b :: t2)) * ((b :: t2).length : ℚ) :=
        mul_le_mul_of_nonneg_right (le_max_right _ _) (by positivity)
      have h3 : a ≤ max a (listMax (b :: t2)) := le_max_left _ _
      simp only [List.sum_cons, List.length_cons] at h1 h2 ⊢
      push_cast at h1 h2 ⊢
      nlinarith [h1, h2, h3]

lemma listMin_mul_le_sum : ∀ (l : List ℚ), listMin l * l.length ≤ l.sum := by
  intro l
  induction l with
  | nil => simp [listMin]
  | cons a t ih =>
    cases t with
    | nil => simp [listMin]
    | cons b t2 =>
      rw [show listMin (a :: b :: t2) = min a (listMin (b :: t2)) from rfl]
      have h1 : listMin (b :: t2) * ((b :: t2).length : ℚ) ≤ (b :: t2).sum := ih
      have h2 : min a (listMin (b :: t2)) * ((b :: t2).length : ℚ) ≤
          listMin (b :: t2) * ((b :: t2).length : ℚ) :=
        mul_le_mul_of_nonneg_right (min_le_right _ _) (by positivity)
      have h3 : min a (listMin (b :: t2)) ≤ a := min_le_left _ _
      simp only [List.sum_cons, List.length_cons] at h1 h2 ⊢
      push_cast at h1 h2 ⊢
      nlinarith [h1, h2, h3]

lemma mean_le_listMax (l : List ℚ) (h : l ≠ []) : mean l ≤ listMax l := by
  have hlen : 0 < (l.length : ℚ) := by
    have := List.length_pos.mpr h
    exact_mod_cast this
  rw [mean, div_le_iff hlen]
  exact sum_le_listMax_mul l

lemma listMin_le_mean (l : List ℚ) (h : l ≠ []) : listMin l ≤ mean l := by
  have hlen : 0 < (l.length : ℚ) := by
    have := List.length_pos.mpr h
    exact_mod_cast this
  rw [mean, le_div_iff hlen]
  exact listMin_mul_le_sum l

lemma mean_pos (l : List ℚ) (h : l ≠ []) (hp : ∀ x ∈ l, 0 < x) : 0 < mean l := by
  have hlen : 0 < (l.length : ℚ) := by
    have := List.length_pos.mpr h
    exact_mod_cast this
  exact div_pos (List.sum_pos l hp h) hlen

lemma mem_window_self (f : ℕ → ℚ) (a b : ℕ) (hab : a ≤ b) : f b ∈ window f a b := by
  rw [window]
  refine List.mem_map.mpr ⟨b - a, List.mem_range.mpr (by omega), ?_⟩
  congr 1
  omega

lemma window_ne_nil (f : ℕ → ℚ) (a b : ℕ) (hab : a ≤ b) : window f a b ≠ [] := by
  rw [window]
  intro hcon
  have := congrArg List.length hcon
  simp at this
  omega

/-! ## Claim C5: the baseline-change rule -/

/-- C5 (amended): a `calculate` loop step changes the baseline iff all three
conditions hold: deviation `|close[i] − baseline|/baseline > 0.25`, the
elapsed-bars counter strictly exceeds 30 (so a change is NOT possible when the
counter reads exactly 30 — at least 31 bars must have passed since the last
change), and the lookback ratio `(max−min)/mean < 0.15`; when they hold, the
new baseline is the lookback window's mean, the bands are recomputed from the
current bar's ATR-percent, and the counter resets to 0. -/
theorem baseline_change_iff_conditions (p : MTRParams) (high low close : ℕ → ℚ)
    (i : ℕ) (s : MTRState) (hb : 0 < s.baseline) (hc : ∀ j, 0 < close j) :
    ((mtrStep p high low close i s).baseline ≠ s.baseline ↔
      (mtrDev close i s > 1/4 ∧ s.daysSince + 1 > 30 ∧ mtrVol p close i < 3/20)) ∧
    (mtrDev close i s > 1/4 ∧ s.daysSince + 1 > 30 ∧ mtrVol p close i < 3/20 →
      (mtrStep p high low close i s).baseline = mean (mtrWindow p close i) ∧
      (mtrStep p high low close i s).upper =
        mean (mtrWindow p close i) * (1 + p.bandMult * atrPctVal p high low close i) ∧
      (mtrStep p high low close i s).lower =
        mean (mtrWindow p close i) * (1 - p.bandMult * atrPctVal p high low close i) ∧
      (mtrStep p high low close i s).daysSince = 0) := by
  have hwne : mtrWindow p close i ≠ [] := window_ne_nil close (i - p.stabilityConfirmation) i (by omega)
  have hmem : close i ∈ mtrWindow p close i :=
    mem_window_self close (i - p.stabilityConfirmation) i (by omega)
  have hwpos : ∀ x ∈ mtrWindow p close i, 0 < x := by
    intro x hx
    rw [mtrWindow, window] at hx
    rcases List.mem_map.mp hx with ⟨k, -, rfl⟩
    exact hc _
  have hmpos : 0 < mean (mtrWindow p close i) := mean_pos _ hwne hwpos
  have hne : mtrDev close i s > 1/4 → mtrVol p close i < 3/20 →
      mean (mtrWindow p close i) ≠ s.baseline := by
    intro hdev hvol heq
    rw [mtrDev, gt_iff_lt, lt_div_iff hb] at hdev
    rw [mtrVol, div_lt_iff hmpos] at hvol
    have h1 : close i ≤ listMax (mtrWindow p close i) := le_listMax _ _ hmem
    have h2 : listMin (mtrWindow p close i) ≤ close i := listMin_le _ _ hmem
    have h3 : listMin (mtrWindow p close i) ≤ mean (mtrWindow p close i) :=
      listMin_le_mean _ hwne
    have h4 : mean (mtrWindow p close i) ≤ listMax (mtrWindow p close i) :=
      mean_le_listMax _ hwne
    rw [heq] at h3 h4 hvol
    rcases abs_cases (close i - s.baseline) with ⟨habs, -⟩ | ⟨habs, -⟩ <;>
      rw [habs] at hdev <;> linarith
  by_cases h1 : mtrDev close i s > 1/4 ∧ s.daysSince + 1 > 30
  · by_cases h2 : mtrVol p close i < 3/20
    · have hstep : mtrStep p high low close i s =
          ⟨mean (mtrWindow p close i),
           mean (mtrWindow p close i) * (1 + p.bandMult * atrPctVal p high low close i),
           mean (mtrWindow p close i) * (1 - p.bandMult * atrPctVal p high low close i), 0⟩ := by
        rw [mtrStep, if_pos h1, if_pos h2]
      rw [hstep]
      exact ⟨⟨fun _ => ⟨h1.1, h1.2, h2⟩, fun _ => hne h1.1 h2⟩,
        fun _ => ⟨rfl, rfl, rfl, rfl⟩⟩
    · have hstep : mtrStep p high low close i s =
          ⟨s.baseline, s.upper, s.lower, s.daysSince + 1⟩ := by
        rw [mtrStep, if_pos h1, if_neg h2]
      rw [hstep]
      exact ⟨⟨fun hcon => absurd rfl hcon, fun hcon => absurd hcon.2.2 h2⟩,
        fun hcon => absurd hcon.2.2 h2⟩
  · have hstep : mtrStep p high low close i s =
        ⟨s.baseline, s.upper, s.lower, s.daysSince + 1⟩ := by
      rw [mtrStep, if_neg h1]
    rw [hstep]
    exact ⟨⟨fun hcon => absurd rfl hcon, fun hcon => absurd ⟨hcon.1, hcon.2.1⟩ h1⟩,
      fun hcon => absurd ⟨hcon.1, hcon.2.1⟩ h1⟩

lemma mtrStretch (p : MTRParams) (h l c : ℕ → ℚ) (k n : ℕ) (B U L : ℚ) (d0 : ℕ)
    (hk : mtrStateAfter p h l c k = ⟨B, U, L, d0⟩)
    (hno : ∀ m, m < n →
      ¬(mtrDev c (mtrStart p + k + 1 + m) ⟨B, U, L, d0 + m⟩ > 1/4 ∧ d0 + m + 1 > 30)) :
    mtrStateAfter p h l c (k + n) = ⟨B, U, L, d0 + n⟩ := by
  induction n with
  | zero => simpa using hk
  | succ n ih =>
    have hstate := ih (fun m hm => hno m (Nat.lt_succ_of_lt hm))
    have hcond := hno n (Nat.lt_succ_self n)
    have hidx : mtrStart p + (k + n) + 1 = mtrStart p + k + 1 + n := by omega
    show mtrStateAfter p h l c ((k + n) + 1) = _
    rw [mtrStateAfter, hstate, hidx, mtrStep, if_neg (by simpa using hcond)]
    rfl

/-- Counterexample to C5 as stated: on the series `c5c` (100 → 130 → 170)
with windows of 1, a baseline change happens at bar 31 (counter reset to 0);
at bar 61 — exactly 30 bars later, with the counter reading 30 after its
increment — the deviation exceeds 0.25 and the lookback ratio is below 0.15,
yet the baseline does not change (it changes only at bar 62). -/
theorem baseline_unchanged_at_thirty_days :
    mtrDev c5c 61 (mtrStateAfter p5c c5c c5c c5c 59) > 1/4 ∧
    (mtrStateAfter p5c c5c c5c c5c 59).daysSince + 1 = 30 ∧
    mtrVol p5c c5c 61 < 3/20 ∧
    mtrBase p5c c5c c5c c5c 70 30 = some 100 ∧
    mtrBase p5c c5c c5c c5c 70 31 = some 130 ∧
    mtrBase p5c c5c c5c c5c 70 60 = some 130 ∧
    mtrBase p5c c5c c5c c5c 70 61 = some 130 ∧
    mtrBase p5c c5c c5c c5c 70 62 = some 170 := by
  have h0 : mtrStateAfter p5c c5c c5c c5c 0 = ⟨100, 100, 100, 1⟩ := by
    norm_num [mtrStateAfter, mtrStep, mtrInit, mtrDev, mtrStart, atrPctVal, atrVal, window,
      trueRange, c5c, p5c, List.range_succ]
  have h29 : mtrStateAfter p5c c5c c5c c5c 29 = ⟨100, 100, 100, 30⟩ := by
    have := mtrStretch p5c c5c c5c c5c 0 29 100 100 100 1 h0
      (by intro m hm; rintro ⟨-, hd⟩; omega)
    simpa using this
  have h30 : mtrStateAfter p5c c5c c5c c5c 30 = ⟨130, 130, 130, 0⟩ := by
    show mtrStateAfter p5c c5c c5c c5c (29 + 1) = _
    rw [mtrStateAfter, h29]
    norm_num [mtrStep, mtrDev, mtrVol, mtrWindow, mean, listMax, listMin, atrPctVal, atrVal,
      window, trueRange, c5c, p5c, mtrStart, List.range_succ]
  have h59 : mtrStateAfter p5c c5c c5c c5c 59 = ⟨130, 130, 130, 29⟩ := by
    have := mtrStretch p5c c5c c5c c5c 30 29 130 130 130 0 h30
      (by intro m hm; rintro ⟨-, hd⟩; omega)
    simpa using this
  have h60 : mtrStateAfter p5c c5c c5c c5c 60 = ⟨130, 130, 130, 30⟩ := by
    have := mtrStretch p5c c5c c5c c5c 59 1 130 130 130 29 h59
      (by intro m hm; rintro ⟨-, hd⟩; omega)
    simpa using this
  have h61 : mtrStateAfter p5c c5c c5c c5c 61 = ⟨170, 170, 170, 0⟩ := by
    show mtrStateAfter p5c c5c c5c c5c (60 + 1) = _
    rw [mtrStateAfter, h60]
    norm_num [mtrStep, mtrDev, mtrVol, mtrWindow, mean, listMax, listMin, atrPctVal, atrVal,
      window, trueRange, c5c, p5c, mtrStart, List.range_succ]
  refine ⟨?_, ?_, ?_, ?_, ?_, ?_, ?_, ?_⟩
  · rw [h59]
    norm_num [mtrDev, c5c]
  · rw [h59]
  · norm_num [mtrVol, mtrWindow, mean, listMax, listMin, window, c5c, p5c, List.range_succ]
  · rw [mtrBase, if_pos (⟨by norm_num [mtrStart, p5c], by norm_num⟩ : mtrStart p5c ≤ 30 ∧ 30 < 70),
      show 30 - mtrStart p5c = 29 by norm_num [mtrStart, p5c], h29]
  · rw [mtrBase, if_pos (⟨by norm_num [mtrStart, p5c], by norm_num⟩ : mtrStart p5c ≤ 31 ∧ 31 < 70),
      show 31 - mtrStart p5c = 30 by norm_num [mtrStart, p5c], h30]
  · rw [mtrBase, if_pos (⟨by norm_num [mtrStart, p5c], by norm_num⟩ : mtrStart p5c ≤ 60 ∧ 60 < 70),
      show 60 - mtrStart p5c = 59 by norm_num [mtrStart, p5c], h59]
  · rw [mtrBase, if_pos (⟨by norm_num [mtrStart, p5c], by norm_num⟩ : mtrStart p5c ≤ 61 ∧ 61 < 70),
      show 61 - mtrStart p5c = 60 by norm_num [mtrStart, p5c], h60]
  · rw [mtrBase, if_pos (⟨by norm_num [mtrStart, p5c], by norm_num⟩ : mtrStart p5c ≤ 62 ∧ 62 < 70),
      show 62 - mtrStart p5c = 61 by norm_num [mtrStart, p5c], h61]

/-- Witness for C5 (amended) at a concrete state with counter 35. -/
theorem baseline_change_iff_conditions_witness :
    (mtrStep p5c cw130 cw130 cw130 5 s5w).baseline = mean (mtrWindow p5c cw130 5) ∧
    (mtrStep p5c cw130 cw130 cw130 5 s5w).upper =
      mean (mtrWindow p5c cw130 5) * (1 + p5c.bandMult * atrPctVal p5c cw130 cw130 cw130 5) ∧
    (mtrStep p5c cw130 cw130 cw130 5 s5w).lower =
      mean (mtrWindow p5c cw130 5) * (1 - p5c.bandMult * atrPctVal p5c cw130 cw130 cw130 5) ∧
    (mtrStep p5c cw130 cw130 cw130 5 s5w).daysSince = 0 :=
  (baseline_change_iff_conditions p5c cw130 cw130 cw130 5 s5w
    (by norm_num [s5w]) (fun j => by norm_num [cw130])).2
    ⟨by norm_num [mtrDev, s5w, cw130],
     by norm_num [s5w],
     by norm_num [mtrVol, mtrWindow, window, mean, listMax, listMin, cw130, p5c, List.range_succ]⟩

/-! ## Claim C7: band ordering -/

lemma trueRange_nonneg (high low close : ℕ → ℚ) (hlh : ∀ j, low j ≤ high j) :
    ∀ i, 0 ≤ trueRange high low close i := by
  intro i
  cases i with
  | zero => simpa [trueRange] using hlh 0
  | succ k =>
    rw [trueRange]
    exact le_max_of_le_left (by linarith [hlh (k + 1)])

lemma atrVal_nonneg (p : MTRParams) (high low close : ℕ → ℚ) (hlh : ∀ j, low j ≤ high j)
    (i : ℕ) : 0 ≤ atrVal p high low close i := by
  rw [atrVal]
  refine div_nonneg (List.sum_nonneg ?_) (by positivity)
  intro x hx
  rw [window] at hx
  rcases List.mem_map.mp hx with ⟨k, -, rfl⟩
  exact trueRange_nonneg high low close hlh _

lemma atrPctVal_nonneg (p : MTRParams) (high low close : ℕ → ℚ) (hlh : ∀ j, low j ≤ high j)
    (hc : ∀ j, 0 < close j) (i : ℕ) : 0 ≤ atrPctVal p high low close i :=
  div_nonneg (atrVal_nonneg p high low close hlh i) (le_of_lt (hc i))

lemma bands_around (b w : ℚ) (hb : 0 < b) (hw : 0 ≤ w) :
    b * (1 - w) ≤ b ∧ b ≤ b * (1 + w) := by
  constructor <;> nlinarith

lemma mtrInv_init (p : MTRParams) (high low close : ℕ → ℚ)
    (hlh : ∀ j, low j ≤ high j) (hc : ∀ j, 0 < close j) (hbm : 0 ≤ p.bandMult)
    (hinit : ∀ b0 ∈ p.initialBaseline, 0 < b0) :
    0 < (mtrInit p high low close).baseline ∧
    (mtrInit p high low close).lower ≤ (mtrInit p high low close).baseline ∧
    (mtrInit p high low close).baseline ≤ (mtrInit p high low close).upper := by
  have hb : 0 < (p.initialBaseline.getD (close (mtrStart p))) := by
    cases hib : p.initialBaseline with
    | none => simpa using hc (mtrStart p)
    | some b0 => simpa using hinit b0 (by rw [hib]; exact rfl)
  have hw : 0 ≤ p.bandMult * atrPctVal p high low close (mtrStart p) :=
    mul_nonneg hbm (atrPctVal_nonneg p high low close hlh hc _)
  have hband := bands_around _ _ hb hw
  exact ⟨hb, hband.1, hband.2⟩

lemma mtrInv_step (p : MTRParams) (high low close : ℕ → ℚ) (i : ℕ) (s : MTRState)
    (hlh : ∀ j, low j ≤ high j) (hc : ∀ j, 0 < close j) (hbm : 0 ≤ p.bandMult)
    (h : 0 < s.baseline ∧ s.lower ≤ s.baseline ∧ s.baseline ≤ s.upper) :
    0 < (mtrStep p high low close i s).baseline ∧
    (mtrStep p high low close i s).lower ≤ (mtrStep p high low close i s).baseline ∧
    (mtrStep p high low close i s).baseline ≤ (mtrStep p high low close i s).upper := by
  rw [mtrStep]
  split_ifs with h1 h2
  · have hwne : mtrWindow p close i ≠ [] :=
      window_ne_nil close (i - p.stabilityConfirmation) i (by omega)
    have hwpos : ∀ x ∈ mtrWindow p close i, 0 < x := by
      intro x hx
      rw [mtrWindow, window] at hx
      rcases List.mem_map.mp hx with ⟨k, -, rfl⟩
      exact hc _
    have hb : 0 < mean (mtrWindow p close i) := mean_pos _ hwne hwpos
    have hw : 0 ≤ p.bandMult * atrPctVal p high low close i :=
      mul_nonneg hbm (atrPctVal_nonneg p high low close hlh hc _)
    have hband := bands_around _ _ hb hw
    exact ⟨hb, hband.1, hband.2⟩
  · exact h
  · exact h

lemma mtrInv_stateAfter (p : MTRParams) (high low close : ℕ → ℚ)
    (hlh : ∀ j, low j ≤ high j) (hc : ∀ j, 0 < close j) (hbm : 0 ≤ p.bandMult)
    (hinit : ∀ b0 ∈ p.initialBaseline, 0 < b0) :
    ∀ k, 0 < (mtrStateAfter p high low close k).baseline ∧
      (mtrStateAfter p high low close k).lower ≤ (mtrStateAfter p high low close k).baseline ∧
      (mtrStateAfter p high low close k).baseline ≤ (mtrStateAfter p high low close k).upper
  | 0 => mtrInv_step p high low close (mtrStart p) _ hlh hc hbm
      (mtrInv_init p high low close hlh hc hbm hinit)
  | k + 1 => mtrInv_step p high low close (mtrStart p + k + 1) _ hlh hc hbm
      (mtrInv_stateAfter p high low close hlh hc hbm hinit k)

/-- C7: for every input satisfying the data model (`low ≤ high`, `close > 0`,
nonnegative band multiplier, positive initial-baseline override if any), at
every index where `mtrBase`, `mtrUpper`, `mtrLower` are all defined,
`lower ≤ base ≤ upper`. -/
theorem bands_ordered_where_defined (p : MTRParams) (high low close : ℕ → ℚ) (N i : ℕ)
    (b u l : ℚ)
    (hlh : ∀ j, low j ≤ high j) (hc : ∀ j, 0 < close j) (hbm : 0 ≤ p.bandMult)
    (hinit : ∀ b0 ∈ p.initialBaseline, 0 < b0)
    (hb : mtrBase p high low close N i = some b)
    (hu : mtrUpper p high low close N i = some u)
    (hl : mtrLower p high low close N i = some l) :
    l ≤ b ∧ b ≤ u := by
  rw [mtrBase] at hb
  rw [mtrUpper] at hu
  rw [mtrLower] at hl
  split_ifs at hb hu hl with hr
  rw [Option.some_inj] at hb hu hl
  subst hb; subst hu; subst hl
  have h := mtrInv_stateAfter p high low close hlh hc hbm hinit (i - mtrStart p)
  exact ⟨h.2.1, h.2.2⟩

/-- Witness for C7 on a constant series at 100 (bands 100/100/100 at bar 1). -/
theorem bands_ordered_where_defined_witness :
    mtrBase p5c cw100 cw100 cw100 2 1 = some 100 ∧
    mtrUpper p5c cw100 cw100 cw100 2 1 = some 100 ∧
    mtrLower p5c cw100 cw100 cw100 2 1 = some 100 ∧
    ((100 : ℚ) ≤ 100 ∧ (100 : ℚ) ≤ 100) := by
  have h0 : mtrStateAfter p5c cw100 cw100 cw100 0 = ⟨100, 100, 100, 1⟩ := by
    norm_num [mtrStateAfter, mtrStep, mtrInit, mtrDev, mtrStart, atrPctVal, atrVal, window,
      trueRange, cw100, p5c, List.range_succ]
  have hb : mtrBase p5c cw100 cw100 cw100 2 1 = some 100 := by
    rw [mtrBase, if_pos (⟨by norm_num [mtrStart, p5c], by norm_num⟩ : mtrStart p5c ≤ 1 ∧ 1 < 2),
      show 1 - mtrStart p5c = 0 by norm_num [mtrStart, p5c], h0]
  have hu : mtrUpper p5c cw100 cw100 cw100 2 1 = some 100 := by
    rw [mtrUpper, if_pos (⟨by norm_num [mtrStart, p5c], by norm_num⟩ : mtrStart p5c ≤ 1 ∧ 1 < 2),
      show 1 - mtrStart p5c = 0 by norm_num [mtrStart, p5c], h0]
  have hl : mtrLower p5c cw100 cw100 cw100 2 1 = some 100 := by
    rw [mtrLower, if_pos (⟨by norm_num [mtrStart, p5c], by norm_num⟩ : mtrStart p5c ≤ 1 ∧ 1 < 2),
      show 1 - mtrStart p5c = 0 by norm_num [mtrStart, p5c], h0]
  exact ⟨hb, hu, hl,
    bands_ordered_where_defined p5c cw100 cw100 cw100 2 1 100 100 100
      (fun j => le_refl _) (fun j => by norm_num [cw100]) (by norm_num [p5c])
      (by simp [p5c]) hb hu hl⟩

/-! ## Claims C6, C8, C9, C10: the signal generator -/

set_option maxHeartbeats 1000000 in
lemma stratStep_trichotomy (p : StratParams) (close : ℕ → ℚ) (ub lb : ℕ → Option ℚ)
    (i : ℕ) (s : StratState) :
    ((stratStep p close ub lb i s).2 = 0 ∧
      (stratStep p close ub lb i s).1.lastTradeIndex = s.lastTradeIndex ∧
      (stratStep p close ub lb i s).1.inPos = s.inPos) ∨
    ((stratStep p close ub lb i s).2 = 1 ∧ s.inPos = false ∧
      (stratStep p close ub lb i s).1.inPos = true ∧
      (stratStep p close ub lb i s).1.lastTradeIndex = (i : ℤ) ∧
      (p.minDaysBetweenTrades : ℤ) ≤ (i : ℤ) - s.lastTradeIndex) ∨
    ((stratStep p close ub lb i s).2 = -1 ∧ s.inPos = true ∧
      (stratStep p close ub lb i s).1.inPos = false ∧
      (stratStep p close ub lb i s).1.lastTradeIndex = (i : ℤ) ∧
      (p.minDaysBetweenTrades : ℤ) ≤ (i : ℤ) - s.lastTradeIndex) := by
  rw [stratStep]
  cases hu : ub i <;> cases hl : lb i <;> dsimp only
  · exact Or.inl ⟨rfl, rfl, rfl⟩
  · exact Or.inl ⟨rfl, rfl, rfl⟩
  · exact Or.inl ⟨rfl, rfl, rfl⟩
  · split_ifs with hcool hsell hbuy hup hcross hdown hcross2 hin hout
    all_goals
      first
        | (exact Or.inl ⟨rfl, rfl, rfl⟩)
        | (refine Or.inr (Or.inl ⟨rfl, ?_, rfl, rfl, by omega⟩) <;>
            simp_all [Bool.not_eq_true])
        | (refine Or.inr (Or.inr ⟨rfl, ?_, rfl, rfl, by omega⟩) <;>
            simp_all [Bool.not_eq_true])

lemma sigsFrom_getD (p : StratParams) (close : ℕ → ℚ) (ub lb : ℕ → Option ℚ) :
    ∀ (k a m : ℕ), (sigsFrom p close ub lb a k).getD m 0 =
      if m < k then signalAt p close ub lb (a + m) else 0 := by
  intro k
  induction k with
  | zero => intro a m; simp [sigsFrom]
  | succ k ih =>
    intro a m
    cases m with
    | zero => simp [sigsFrom]
    | succ m =>
      rw [sigsFrom]
      simp only [List.getD_cons_succ]
      rw [ih (a + 1) m]
      have : a + 1 + m = a + (m + 1) := by omega
      rw [this]
      simp only [Nat.add_lt_add_iff_right]

lemma signalAt_traded (p : StratParams) (close : ℕ → ℚ) (ub lb : ℕ → Option ℚ)
    (k : ℕ) (h : signalAt p close ub lb (k + 1) ≠ 0) :
    (stratStateAfter p close ub lb (k + 1)).lastTradeIndex = ((k + 1 : ℕ) : ℤ) ∧
    (p.minDaysBetweenTrades : ℤ) ≤
      ((k + 1 : ℕ) : ℤ) - (stratStateAfter p close ub lb k).lastTradeIndex := by
  rcases stratStep_trichotomy p close ub lb (k + 1) (stratStateAfter p close ub lb k) with
    ⟨h0, -, -⟩ | ⟨-, -, -, hset, hcd⟩ | ⟨-, -, -, hset, hcd⟩
  · exact absurd h0 h
  · exact ⟨hset, hcd⟩
  · exact ⟨hset, hcd⟩

lemma lti_ge_of_traded (p : StratParams) (close : ℕ → ℚ) (ub lb : ℕ → Option ℚ)
    (j : ℕ) (hj : (stratStateAfter p close ub lb j).lastTradeIndex = (j : ℤ)) :
    ∀ m, j ≤ m → (j : ℤ) ≤ (stratStateAfter p close ub lb m).lastTradeIndex := by
  intro m
  induction m with
  | zero => intro hm; interval_cases j; rw [hj]
  | succ m ih =>
    intro hm
    rcases Nat.lt_or_ge j (m + 1) with hlt | hge
    · have hjm : j ≤ m := by omega
      have hrec := ih hjm
      rcases stratStep_trichotomy p close ub lb (m + 1) (stratStateAfter p close ub lb m) with
        ⟨-, hkeep, -⟩ | ⟨-, -, -, hset, -⟩ | ⟨-, -, -, hset, -⟩
      · rw [show stratStateAfter p close ub lb (m + 1) =
            (stratStep p close ub lb (m + 1) (stratStateAfter p close ub lb m)).1 from rfl]
        omega
      · rw [show stratStateAfter p close ub lb (m + 1) =
            (stratStep p close ub lb (m + 1) (stratStateAfter p close ub lb m)).1 from rfl]
        rw [hset]
        push_cast
        omega
      · rw [show stratStateAfter p close ub lb (m + 1) =
            (stratStep p close ub lb (m + 1) (stratStateAfter p close ub lb m)).1 from rfl]
        rw [hset]
        push_cast
        omega
    · have : j = m + 1 := by omega
      subst this
      rw [hj]

/-- C6: in every signal array produced by `generateSignals`, if a nonzero
signal was emitted at index `j`, every index `i` with `j < i < j +
minDaysBetweenTrades` holds a 0 — no buy or sell is emitted inside the
cooldown window, including via the band-change reassessment path. -/
theorem cooldown_blocks_signals (p : StratParams) (close : ℕ → ℚ) (ub lb : ℕ → Option ℚ)
    (N j i : ℕ)
    (hj : (generateSignals p close ub lb N).getD j 0 ≠ 0)
    (hji : j < i) (hi : i < j + p.minDaysBetweenTrades) :
    (generateSignals p close ub lb N).getD i 0 = 0 := by
  rw [generateSignals, sigsFrom_getD] at hj ⊢
  simp only [Nat.zero_add] at hj ⊢
  split_ifs at hj with hjN
  swap
  · exact absurd rfl hj
  split_ifs with hiN
  swap
  · rfl
  by_contra hsig
  cases hj2 : j with
  | zero =>
    subst hj2
    exact hj rfl
  | succ jk =>
    subst hj2
    have htr := signalAt_traded p close ub lb jk hj
    cases hi2 : i with
    | zero => omega
    | succ ik =>
      subst hi2
      have htr2 := signalAt_traded p close ub lb ik hsig
      have hge : (jk + 1 : ℕ) ≤ ik := by omega
      have hmono := lti_ge_of_traded p close ub lb (jk + 1) htr.1 ik hge
      have hcd := htr2.2
      push_cast at hmono hcd ⊢
      omega

/-- Witness for C6: a buy fires at bar 1 of `c6c` and bar 2 is forced hold. -/
theorem cooldown_blocks_signals_witness :
    (generateSignals spDefaults c6c u6 l6 3).getD 2 0 = 0 := by
  refine cooldown_blocks_signals spDefaults c6c u6 l6 3 1 2 ?_ (by omega)
    (by norm_num [spDefaults])
  rw [generateSignals, sigsFrom_getD]
  norm_num [signalAt, stratStateAfter, stratStep, stratInit, bandChanged, leOpt, geOpt, levels,
    spDefaults, c6c, u6, l6]

lemma stratStep_inPos_of_zero (p : StratParams) (close : ℕ → ℚ) (ub lb : ℕ → Option ℚ)
    (i : ℕ) (s : StratState) (h : (stratStep p close ub lb i s).2 = 0) :
    (stratStep p close ub lb i s).1.inPos = s.inPos := by
  rcases stratStep_trichotomy p close ub lb i s with ⟨-, -, hp⟩ | ⟨h1, -, -, -, -⟩ | ⟨h1, -, -, -, -⟩
  · exact hp
  · rw [h1] at h; exact absurd h (by norm_num)
  · rw [h1] at h; exact absurd h (by norm_num)

lemma altCheck_from (p : StratParams) (close : ℕ → ℚ) (ub lb : ℕ → Option ℚ) :
    ∀ (k a : ℕ),
      altCheck (!(stratStateAfter p close ub lb a).inPos)
        (sigsFrom p close ub lb (a + 1) k) = true := by
  intro k
  induction k with
  | zero => intro a; rfl
  | succ k ih =>
    intro a
    rw [sigsFrom]
    have hsig : signalAt p close ub lb (a + 1) =
        (stratStep p close ub lb (a + 1) (stratStateAfter p close ub lb a)).2 := rfl
    have hnext : stratStateAfter p close ub lb (a + 1) =
        (stratStep p close ub lb (a + 1) (stratStateAfter p close ub lb a)).1 := rfl
    rcases stratStep_trichotomy p close ub lb (a + 1) (stratStateAfter p close ub lb a) with
      ⟨h0, -, hp⟩ | ⟨h1, hold, hnew, -, -⟩ | ⟨h1, hold, hnew, -, -⟩
    · rw [altCheck, if_pos (by rw [hsig, h0])]
      have := ih (a + 1)
      rwa [hnext, hp] at this
    · rw [altCheck, if_neg (by rw [hsig, h1]; norm_num),
        if_pos (by rw [hsig, h1, hold]; norm_num)]
      have := ih (a + 1)
      rw [hnext, hnew] at this
      simpa [hold] using this
    · rw [altCheck, if_neg (by rw [hsig, h1]; norm_num),
        if_pos (by rw [hsig, h1, hold]; norm_num)]
      have := ih (a + 1)
      rw [hnext, hnew] at this
      simpa [hold] using this

/-- C10: in every signal array produced by `generateSignals`, the nonzero
entries strictly alternate between 1 and −1, the first one (if any) is 1,
and the scale-out value 2 is never emitted. -/
theorem signals_alternate_buy_first (p : StratParams) (close : ℕ → ℚ)
    (ub lb : ℕ → Option ℚ) (N : ℕ) :
    altCheck true (generateSignals p close ub lb N) = true := by
  rw [generateSignals]
  cases N with
  | zero => rfl
  | succ n =>
    rw [show max 1 (n + 1) = n + 1 by omega, sigsFrom,
      show signalAt p close ub lb 0 = 0 from rfl, altCheck, if_pos rfl]
    have := altCheck_from p close ub lb n 0
    simpa [stratInit] using this

/-- C9 (amended): after processing a bar `i ≥ 1` whose bands are both
defined, the stored previous-band state equals bar `i`'s band values — on
every such bar, including cooldown holds and band-change trades; but on a bar
with an undefined band the previous-band state is left untouched (it retains
the last defined bands), not set to the undefined marker. -/
theorem prev_bands_track_defined_bars (p : StratParams) (close : ℕ → ℚ)
    (ub lb : ℕ → Option ℚ) (k : ℕ) :
    (∀ u l, ub (k + 1) = some u → lb (k + 1) = some l →
      (stratStateAfter p close ub lb (k + 1)).prevUpper = some u ∧
      (stratStateAfter p close ub lb (k + 1)).prevLower = some l) ∧
    ((ub (k + 1) = none ∨ lb (k + 1) = none) →
      (stratStateAfter p close ub lb (k + 1)).prevUpper =
        (stratStateAfter p close ub lb k).prevUpper ∧
      (stratStateAfter p close ub lb (k + 1)).prevLower =
        (stratStateAfter p close ub lb k).prevLower) := by
  have hnext : stratStateAfter p close ub lb (k + 1) =
      (stratStep p close ub lb (k + 1) (stratStateAfter p close ub lb k)).1 := rfl
  rw [hnext, stratStep]
  cases hu : ub (k + 1) <;> cases hl : lb (k + 1) <;> dsimp only
  · exact ⟨fun u l h1 _ => absurd h1 (by simp), fun _ => ⟨rfl, rfl⟩⟩
  · exact ⟨fun u l h1 _ => absurd h1 (by simp), fun _ => ⟨rfl, rfl⟩⟩
  · exact ⟨fun u l _ h2 => absurd h2 (by simp), fun _ => ⟨rfl, rfl⟩⟩
  · constructor
    · intro u l h1 h2
      rw [Option.some_inj] at h1 h2
      subst h1; subst h2
      split_ifs <;> exact ⟨rfl, rfl⟩
    · rintro (h | h) <;> simp at h

/-- Counterexample to C9 as stated: with bands defined only at bar 1
(`u9`/`l9`), after processing bar 2 — whose bands are undefined — the stored
previous upper band is still `some 10` (bar 1's value), not the undefined
marker the claim requires. -/
theorem prev_bands_not_updated_on_undefined_bar :
    u9 2 = none ∧ l9 2 = none ∧
    (stratStateAfter spDefaults c9c u9 l9 2).prevUpper = some 10 ∧
    (stratStateAfter spDefaults c9c u9 l9 2).prevUpper ≠ none := by
  have h1 : stratStateAfter spDefaults c9c u9 l9 1 = ⟨false, -10000, some 10, some 5⟩ := by
    norm_num [stratStateAfter, stratStep, stratInit, bandChanged, leOpt, geOpt, levels,
      spDefaults, c9c, u9, l9]
  have h2 : stratStateAfter spDefaults c9c u9 l9 2 = ⟨false, -10000, some 10, some 5⟩ := by
    show stratStateAfter spDefaults c9c u9 l9 (1 + 1) = _
    rw [show stratStateAfter spDefaults c9c u9 l9 (1 + 1) =
        (stratStep spDefaults c9c u9 l9 (1 + 1) (stratStateAfter spDefaults c9c u9 l9 1)).1
        from rfl, h1]
    norm_num [stratStep, u9, l9]
  exact ⟨rfl, rfl, by rw [h2], by rw [h2]; simp⟩

/-- Witness for C9 (amended): both conjuncts at concrete bars 1 and 2. -/
theorem prev_bands_track_defined_bars_witness :
    ((stratStateAfter spDefaults c9c u9 l9 1).prevUpper = some 10 ∧
     (stratStateAfter spDefaults c9c u9 l9 1).prevLower = some 5) ∧
    ((stratStateAfter spDefaults c9c u9 l9 2).prevUpper =
       (stratStateAfter spDefaults c9c u9 l9 1).prevUpper ∧
     (stratStateAfter spDefaults c9c u9 l9 2).prevLower =
       (stratStateAfter spDefaults c9c u9 l9 1).prevLower) :=
  ⟨(prev_bands_track_defined_bars spDefaults c9c u9 l9 0).1 10 5 rfl rfl,
   (prev_bands_track_defined_bars spDefaults c9c u9 l9 1).2 (Or.inl rfl)⟩

lemma sigsFrom_length (p : StratParams) (close : ℕ → ℚ) (ub lb : ℕ → Option ℚ) :
    ∀ (k a : ℕ), (sigsFrom p close ub lb a k).length = k := by
  intro k
  induction k with
  | zero => intro a; rfl
  | succ k ih => intro a; rw [sigsFrom]; simp [ih]

lemma signalAt_zero_of_undefined (p : StratParams) (close : ℕ → ℚ)
    (ub lb : ℕ → Option ℚ) (hub : ∀ i, ub i = none) :
    ∀ i, signalAt p close ub lb i = 0 := by
  intro i
  cases i with
  | zero => rfl
  | succ k =>
    rw [signalAt, stratStep, hub (k + 1)]

/-- C8 (amended): for input length `N ≤ max(serenityWindow, atrWindow)` the
indicator returns with all of `mtrBase`/`mtrUpper`/`mtrLower` undefined at
every index, and `generateSignals` on any series whose upper band is undefined
at every bar returns, without failing, an all-zero signal array — of length
`max 1 N` (the source pads `signals = [0]` first, so an empty series yields
`[0]`, not `[]`). -/
theorem short_series_all_undefined_and_hold (mp : MTRParams) (high low c : ℕ → ℚ) (N : ℕ)
    (hN : N ≤ max mp.serenityWindow mp.atrWindow)
    (sp : StratParams) (c2 : ℕ → ℚ) (ub lb : ℕ → Option ℚ) (N2 : ℕ)
    (hub : ∀ i, ub i = none) :
    (∀ i, mtrBase mp high low c N i = none ∧ mtrUpper mp high low c N i = none ∧
      mtrLower mp high low c N i = none) ∧
    (generateSignals sp c2 ub lb N2).length = max 1 N2 ∧
    (∀ s0 ∈ generateSignals sp c2 ub lb N2, s0 = 0) := by
  have hrange : ∀ i : ℕ, ¬(mtrStart mp ≤ i ∧ i < N) := by
    rintro i ⟨h1, h2⟩
    rw [mtrStart] at h1
    omega
  refine ⟨fun i => ⟨?_, ?_, ?_⟩, ?_, ?_⟩
  · rw [mtrBase, if_neg (hrange i)]
  · rw [mtrUpper, if_neg (hrange i)]
  · rw [mtrLower, if_neg (hrange i)]
  · rw [generateSignals, sigsFrom_length]
  · intro s0 hs0
    rw [generateSignals] at hs0
    have : ∀ (k a : ℕ), s0 ∈ sigsFrom sp c2 ub lb a k → s0 = 0 := by
      intro k
      induction k with
      | zero => intro a h; simp [sigsFrom] at h
      | succ k ih =>
        intro a h
        rw [sigsFrom] at h
        rcases List.mem_cons.mp h with rfl | h2
        · exact signalAt_zero_of_undefined sp c2 ub lb hub a
        · exact ih (a + 1) h2
    exact this (max 1 N2) 0 hs0

/-- Counterexample to C8 as stated: on an empty series (`N = 0`, bands
undefined everywhere) `generateSignals` returns `[0]`, an array of length 1,
not of length `N = 0`. -/
theorem empty_series_signal_length :
    (generateSignals spDefaults cw100 bandsNone bandsNone 0).length = 1 ∧ (1 : ℕ) ≠ 0 :=
  ⟨rfl, by omega⟩

/-- Witness for C8 (amended) at `N = 5 ≤ max(20, 14)` and a 3-bar
undefined-band series. -/
theorem short_series_all_undefined_and_hold_witness :
    mtrBase mtrDefaults cw100 cw100 cw100 5 0 = none ∧
    (generateSignals spDefaults cw100 bandsNone bandsNone 3).length = max 1 3 := by
  have h := short_series_all_undefined_and_hold mtrDefaults cw100 cw100 cw100 5
    (by norm_num [mtrDefaults]) spDefaults cw100 bandsNone bandsNone 3 (fun i => rfl)
  exact ⟨(h.1 0).1, h.2.1⟩
